import Mathlib

/-
Verification development for the messaging-app repository.

The server core lives in src/src/server.py; the wire codec it imports
(encode_header and decode_header from util.py) is not present in the
repository snapshot, so that codec is modelled from the specification,
as marked on each such definition.  Everything else is translated
directly from the Python source.
-/

namespace Chat

/-- The enumerated packet types.  Values follow the PacketType enum of
src/src/packet.py; the server variant names value 1 USERNAME (the
packet_type module it imports is not in the snapshot, packet.py names
the same value METADATA). -/
inductive PacketType where
  | USERNAME
  | OUT_MESSAGE
  | IN_MESSAGE
  | ANNOUNCEMENT
  | FILE_LIST_REQUEST
  | FILE_LIST
  | DOWNLOAD_REQUEST
  | DOWNLOAD
  | DUPLICATE_USERNAME
deriving DecidableEq, Repr

/-- Numeric value of each packet type, as in the PacketType enum. -/
def PacketType.value : PacketType → Nat
  | .USERNAME => 1
  | .OUT_MESSAGE => 2
  | .IN_MESSAGE => 3
  | .ANNOUNCEMENT => 4
  | .FILE_LIST_REQUEST => 5
  | .FILE_LIST => 6
  | .DOWNLOAD_REQUEST => 7
  | .DOWNLOAD => 8
  | .DUPLICATE_USERNAME => 9

/-- Inverse of PacketType.value: recover a packet type from its wire
value, rejecting unknown values. -/
def PacketType.ofValue : Int → Option PacketType
  | 1 => some .USERNAME
  | 2 => some .OUT_MESSAGE
  | 3 => some .IN_MESSAGE
  | 4 => some .ANNOUNCEMENT
  | 5 => some .FILE_LIST_REQUEST
  | 6 => some .FILE_LIST
  | 7 => some .DOWNLOAD_REQUEST
  | 8 => some .DOWNLOAD
  | 9 => some .DUPLICATE_USERNAME
  | _ => none

theorem PacketType.ofValue_value (t : PacketType) :
    PacketType.ofValue (t.value : Int) = some t := by
  cases t <;> rfl

/-- Fixed header width in bytes, from HEADER_SIZE in the codec module. -/
def HEADER_SIZE : Nat := 128

/-- Decimal digit characters. -/
def isDigitCh (c : Char) : Bool := 48 ≤ c.toNat && c.toNat ≤ 57

/-- Parse a nonempty all-digit character list as a natural number. -/
def parseNat (cs : List Char) : Option Nat :=
  if cs = [] then none
  else if cs.all isDigitCh then
    some (cs.foldl (fun a c => a * 10 + (c.toNat - 48)) 0)
  else none

/-- Parse an optionally minus-signed integer. -/
def parseInt (cs : List Char) : Option Int :=
  if cs.head? = some '-' then (parseNat cs.tail).map (fun n => -(n : Int))
  else (parseNat cs).map (fun n => (n : Int))

/-- Decimal digit characters of a natural number, most significant
first, computed with explicit fuel so that it reduces by evaluation. -/
def natCharsCore : Nat → Nat → List Char
  | 0, _ => []
  | fuel + 1, n =>
    if n < 10 then [Char.ofNat (48 + n)]
    else natCharsCore fuel (n / 10) ++ [Char.ofNat (48 + n % 10)]

/-- Decimal representation of a natural number as characters. -/
def natChars (n : Nat) : List Char := natCharsCore (n + 1) n

/-- Errors reported by the decoder, the ProtocolError taxonomy of the
specification. -/
inductive ProtocolError where
  | malformedHeader
  | unknownType
  | negativeLength
deriving DecidableEq, Repr

/-- Modelled from the spec: the parameter region of the header holds
short delimited key=value text; util.py, which implements it, is not in
the repository snapshot.  Each pair is rendered as key, equals sign,
value, semicolon. -/
def renderParams : List (String × String) → List Char
  | [] => []
  | (k, v) :: rest => k.data ++ '=' :: (v.data ++ ';' :: renderParams rest)

/-- Modelled from the spec: parser for the rendered parameter region.
Parsing stops at the padding (a space) or at the end of the header.
The first argument is fuel bounding the number of pairs. -/
def parseParamsF : Nat → List Char → Option (List (String × String))
  | 0, _ => none
  | fuel + 1, cs =>
    if cs.headD ' ' = ' ' then some []
    else
      let k := cs.takeWhile (fun x => x ≠ '=')
      match cs.dropWhile (fun x => x ≠ '=') with
      | '=' :: r1 =>
        let v := r1.takeWhile (fun x => x ≠ ';')
        match r1.dropWhile (fun x => x ≠ ';') with
        | ';' :: r2 => (parseParamsF fuel r2).map (fun ps => (⟨k⟩, ⟨v⟩) :: ps)
        | _ => none
      | _ => none

/-- Validity of a parameter list for the header codec: keys avoid the
space, equals and semicolon delimiters, values avoid the semicolon. -/
def paramsOk (params : List (String × String)) : Prop :=
  ∀ kv ∈ params,
    (∀ c ∈ kv.1.data, c ≠ ' ' ∧ c ≠ '=' ∧ c ≠ ';') ∧ (∀ c ∈ kv.2.data, c ≠ ';')

/-- Modelled from the spec: encode_header of the missing util.py.
Builds the fixed-size header for a packet of the given type, declared
payload length and auxiliary parameters: type value, then declared
length, then the parameter region, space padded to HEADER_SIZE.
Returns none when the text exceeds the header capacity, the fatal
encoding error of the specification. -/
def encode_header (t : PacketType) (size : Nat)
    (params : List (String × String)) : Option (List Char) :=
  let body := natChars t.value ++ '|' :: (natChars size ++ '|' :: renderParams params)
  if body.length ≤ HEADER_SIZE then
    some (body ++ List.replicate (HEADER_SIZE - body.length) ' ')
  else none

/-- Modelled from the spec: decode_header of the missing util.py.
Parses the fixed-size header into its type, declared length and
parameters, rejecting a header whose type value is unknown or whose
declared length is negative, and reporting a ProtocolError. -/
def decode_header (cs : List Char) :
    Except ProtocolError (PacketType × Int × List (String × String)) :=
  let f1 := cs.takeWhile (fun c => c ≠ '|')
  match cs.dropWhile (fun c => c ≠ '|') with
  | '|' :: r2 =>
    match parseInt f1 with
    | none => .error .malformedHeader
    | some tv =>
      match PacketType.ofValue tv with
      | none => .error .unknownType
      | some t =>
        let f2 := r2.takeWhile (fun c => c ≠ '|')
        match r2.dropWhile (fun c => c ≠ '|') with
        | '|' :: r3 =>
          match parseInt f2 with
          | none => .error .malformedHeader
          | some sz =>
            if sz < 0 then .error .negativeLength
            else
              match parseParamsF (r3.length + 1) r3 with
              | none => .error .malformedHeader
              | some ps => .ok (t, sz, ps)
        | _ => .error .malformedHeader
  | _ => .error .malformedHeader

/-
Server data model, translated from src/src/server.py.

Sockets are identified by a numeric connection id: the Python code
distinguishes connections by object identity, which the embedding
renders as a cid assigned from a counter at registration time.
Outbound traffic is modelled as structured frames rather than raw
header bytes: every send site in server.py builds
encode_header(type, len(msg), key=value...) + msg, which the Frame
structure records field by field.
-/

/-- One entry of the connection registry: ClientConnection in
server.py, whose username field is None until an accepted claim. -/
structure ClientConnection where
  cid : Nat
  username : Option String
deriving DecidableEq, Repr

/-- An outbound frame: packet type, the keyword parameters passed to
encode_header, and the payload bytes appended after the header. -/
structure Frame where
  ptype : PacketType
  params : List (String × Option String)
  payload : List Nat
deriving DecidableEq, Repr

/-- Byte rendering of a Python str via encode: modelled as the
character codepoints, an injective stand-in for UTF-8. -/
def strBytes (s : String) : List Nat := s.data.map Char.toNat

/-- Python str() of an optional string: None prints as the text None,
as happens in the f-strings of server.py. -/
def pyStr : Option String → String
  | none => "None"
  | some s => s

/-- Python truthiness of an optional string: None and the empty string
are falsy. -/
def pyTruthy : Option String → Bool
  | none => false
  | some s => s ≠ ""

/-- Log events the claims depend on; the logging sink is otherwise an
external collaborator the specification leaves unspecified. -/
inductive LogEvent where
  | fileNotFound (path : String)
deriving DecidableEq, Repr

/-- Result of one handler: the updated registry, the frames passed to
sendall in order (tagged with the cid of the destination socket), and
the modelled log events. -/
structure SR where
  conns : List ClientConnection
  sends : List (Nat × Frame)
  logs : List LogEvent
deriving DecidableEq, Repr

/-- Server.get_connected_users: the list comprehension keeps
conn.username only when it is truthy, so unset and empty usernames are
omitted. -/
def get_connected_users (conns : List ClientConnection) : List String :=
  conns.filterMap (fun c =>
    match c.username with
    | some u => if u = "" then none else some u
    | none => none)

/-- Python membership test of an optional username in a list of
strings: None is never an element of a list of strings. -/
def usernameMem (u : Option String) (l : List String) : Bool :=
  match u with
  | some s => s ∈ l
  | none => false

/-- Server.broadcast: iterate the registry in order, skip every
connection whose username is in the exclude list, sendall to the rest. -/
def broadcast (conns : List ClientConnection) (fr : Frame)
    (exclude : List (Option String)) : List (Nat × Frame) :=
  match conns with
  | [] => []
  | c :: rest =>
    if c.username ∈ exclude then broadcast rest fr exclude
    else (c.cid, fr) :: broadcast rest fr exclude

/-- Server.unicast: sendall to the first connection whose username
equals the recipient, then return; a missing recipient only logs. -/
def unicast (conns : List ClientConnection) (fr : Frame)
    (recipient : Option String) : List (Nat × Frame) :=
  match conns with
  | [] => []
  | c :: rest =>
    if c.username = recipient then [(c.cid, fr)]
    else unicast rest fr recipient

/-- Update the registry entry with the given cid, the embedding of
mutating the ClientConnection object in place. -/
def setUsername (conns : List ClientConnection) (cid : Nat)
    (u : Option String) : List ClientConnection :=
  conns.map (fun c => if c.cid = cid then { c with username := u } else c)

/-- Server.handle_duplicate_username: send the claiming connection a
DUPLICATE_USERNAME frame whose payload joins the current user list. -/
def handle_duplicate_username (conns : List ClientConnection) (cid : Nat) : SR :=
  let userList := String.intercalate ", " (get_connected_users conns)
  ⟨conns, [(cid, ⟨.DUPLICATE_USERNAME, [], strBytes userList⟩)], []⟩

/-- Server.process_username_packet: reject a claim whose name is in
the current user list, leaving the registry unchanged; otherwise store
the name, broadcast a join announcement excluding it, and unicast a
welcome to it. -/
def process_username_packet (conns : List ClientConnection) (cid : Nat)
    (username : Option String) : SR :=
  if usernameMem username (get_connected_users conns) then
    handle_duplicate_username conns cid
  else
    let conns2 := setUsername conns cid username
    let joinMsg := pyStr username ++ " has joined"
    let joinFr : Frame := ⟨.ANNOUNCEMENT, [], strBytes joinMsg⟩
    let welcomeMsg := "Welcome to the server, " ++ pyStr username ++ "!"
    let welcomeFr : Frame := ⟨.ANNOUNCEMENT, [], strBytes welcomeMsg⟩
    ⟨conns2, broadcast conns2 joinFr [username] ++ unicast conns2 welcomeFr username, []⟩

/-- Server.process_message_packet: the delivered IN_MESSAGE frame
carries the sender taken from the registry record of the connection; a
truthy recipient selects unicast, otherwise broadcast excluding the
sender. -/
def process_message_packet (conns : List ClientConnection) (cid : Nat)
    (recipient : Option String) (message : String) : SR :=
  match conns.find? (fun c => c.cid = cid) with
  | none => ⟨conns, [], []⟩
  | some conn =>
    let fr : Frame := ⟨.IN_MESSAGE, [("sender", conn.username)], strBytes message⟩
    if pyTruthy recipient then ⟨conns, unicast conns fr recipient, []⟩
    else ⟨conns, broadcast conns fr [conn.username], []⟩

/-- Server.process_file_list_request: send the requester a FILE_LIST
frame listing the downloads directory; a missing directory yields the
no-files text.  The directory enumeration is the external collaborator
dirEntries. -/
def process_file_list_request (dirEntries : Option (List String))
    (conns : List ClientConnection) (cid : Nat) : SR :=
  let files :=
    match dirEntries with
    | some names => names.map (fun n => "|-- " ++ n ++ "\n")
    | none => ["|-- No files found on the server"]
  let message := "download\n" ++ String.join files
  ⟨conns, [(cid, ⟨.FILE_LIST, [], strBytes message⟩)], []⟩

/-- Server.process_download_request: read download/filename and send
its bytes to the requester in a DOWNLOAD frame; a missing file is
caught, logged as FileNotFound and dropped with no send.  The file
system is the association list files, keyed by path. -/
def process_download_request (files : List (String × List Nat))
    (conns : List ClientConnection) (cid : Nat) (filename : Option String) : SR :=
  let filepath := "download/" ++ pyStr filename
  match files.lookup filepath with
  | none => ⟨conns, [], [.fileNotFound filepath]⟩
  | some content =>
    ⟨conns, [(cid, ⟨.DOWNLOAD, [("filename", filename)], content⟩)], []⟩

/-- Server.close_conn: broadcast the departure announcement while the
departing connection is still registered, excluding its own username,
then remove it from the registry. -/
def close_conn (conns : List ClientConnection) (cid : Nat) : SR :=
  match conns.find? (fun c => c.cid = cid) with
  | none => ⟨conns, [], []⟩
  | some conn =>
    let msg := pyStr conn.username ++ " has left"
    let fr : Frame := ⟨.ANNOUNCEMENT, [], strBytes msg⟩
    ⟨conns.eraseP (fun c => c.cid = cid), broadcast conns fr [conn.username], []⟩

/-- Python dict.get on the decoded parameters: None when absent. -/
def getParam (ps : List (String × String)) (k : String) : Option String :=
  ps.lookup k

/-- Insert or overwrite one key of a decoded parameter list. -/
def setParam (ps : List (String × String)) (k v : String) :
    List (String × String) :=
  match ps with
  | [] => [(k, v)]
  | (k0, v0) :: rest =>
    if k0 = k then (k, v) :: rest else (k0, v0) :: setParam rest k v

/-
Event loop embedding, from Server.process_socket and Server.listen.

A ready socket is modelled by its cid together with the successive
results of the recv calls the handler issues; each element of chunks is
the byte string one recv call returns, as delivered by the operating
system.  process_socket has no exception handler, so a decoder error
escapes it, which the Except value records.
-/

/-- External collaborators of the loop: the readable file system and
the downloads directory listing. -/
structure Env where
  files : List (String × List Nat)
  dirEntries : Option (List String)

/-- One readiness event on a data socket: the connection it belongs to
and the successive recv results. -/
structure SockRead where
  cid : Nat
  chunks : List (List Char)

/-- Server.process_socket: one recv of HEADER_SIZE bytes, close on an
empty read, decode the header, one recv of the declared payload size,
then dispatch on the packet type.  The recv results are taken from the
chunks of the event; whatever the second recv returns is used as the
complete message.  There is no exception handling, so a decode error
propagates to the caller. -/
def process_socket (env : Env) (conns : List ClientConnection)
    (ev : SockRead) : Except ProtocolError SR :=
  let data := ev.chunks.headD []
  if data = [] then .ok (close_conn conns ev.cid)
  else
    match decode_header data with
    | .error e => .error e
    | .ok (t, _, params) =>
      let message : String := ⟨ev.chunks.getD 1 []⟩
      match t with
      | .USERNAME => .ok (process_username_packet conns ev.cid (getParam params "username"))
      | .OUT_MESSAGE => .ok (process_message_packet conns ev.cid (getParam params "recipient") message)
      | .FILE_LIST_REQUEST => .ok (process_file_list_request env.dirEntries conns ev.cid)
      | .DOWNLOAD_REQUEST => .ok (process_download_request env.files conns ev.cid (getParam params "filename"))
      | _ => .ok ⟨conns, [], []⟩

/-- Server.listen, restricted to data sockets: process the ready
sockets in order, threading the registry and accumulating sends.  An
exception raised inside process_socket is uncaught and aborts the
loop, leaving the remaining events unserved. -/
def listenSteps (env : Env) (conns : List ClientConnection) :
    List SockRead → Except ProtocolError SR
  | [] => .ok ⟨conns, [], []⟩
  | ev :: rest =>
    match process_socket env conns ev with
    | .error e => .error e
    | .ok r =>
      match listenSteps env r.conns rest with
      | .error e => .error e
      | .ok r2 => .ok ⟨r2.conns, r.sends ++ r2.sends, r.logs ++ r2.logs⟩

/-
Registry-level event traces, for the invariant claims: registrations
from the accept branch of Server.listen, username claims and
disconnections.
-/

/-- The events of the loop that touch the registry. -/
inductive Event where
  | register
  | claim (cid : Nat) (username : Option String)
  | disconnect (cid : Nat)

/-- The registry together with the counter assigning fresh connection
ids, standing for Python object identity. -/
structure ServerState where
  conns : List ClientConnection
  nextId : Nat
deriving DecidableEq, Repr

/-- One registry transition of the loop: accept appends an
unidentified connection, a claim runs process_username_packet, a
disconnect runs close_conn. -/
def step (s : ServerState) : Event → ServerState
  | .register => ⟨s.conns ++ [⟨s.nextId, none⟩], s.nextId + 1⟩
  | .claim cid u => ⟨(process_username_packet s.conns cid u).conns, s.nextId⟩
  | .disconnect cid => ⟨(close_conn s.conns cid).conns, s.nextId⟩

/-- The registry reached after a sequence of events, starting from the
empty server. -/
def runEvents (evs : List Event) : ServerState :=
  evs.foldl step ⟨[], 0⟩

/-- Two registry entries never hold the same nonempty username. -/
def heldDistinct (a b : ClientConnection) : Prop :=
  ∀ u : String, u ≠ "" → a.username = some u → b.username ≠ some u

/-- Inductive invariant of the loop state: connection ids are pairwise
distinct and below the counter, and nonempty usernames are pairwise
distinct. -/
def Inv (s : ServerState) : Prop :=
  s.conns.Pairwise (fun a b => a.cid ≠ b.cid ∧ heldDistinct a b)
    ∧ ∀ c ∈ s.conns, c.cid < s.nextId

/-
Helper lemmas.
-/

theorem broadcast_mem (conns : List ClientConnection) (fr : Frame)
    (ex : List (Option String)) (p : Nat × Frame) :
    p ∈ broadcast conns fr ex ↔
      ∃ c ∈ conns, c.username ∉ ex ∧ p = (c.cid, fr) := by
  induction conns with
  | nil => simp [broadcast]
  | cons c rest ih =>
    by_cases hc : c.username ∈ ex
    · rw [broadcast, if_pos hc, ih]
      constructor
      · rintro ⟨x, hx, hxe, rfl⟩
        exact ⟨x, List.mem_cons_of_mem c hx, hxe, rfl⟩
      · rintro ⟨x, hx, hxe, rfl⟩
        rcases List.mem_cons.mp hx with rfl | hx2
        · exact absurd hc hxe
        · exact ⟨x, hx2, hxe, rfl⟩
    · rw [broadcast, if_neg hc]
      constructor
      · intro hp
        rcases List.mem_cons.mp hp with rfl | hp2
        · exact ⟨c, List.mem_cons_self c rest, hc, rfl⟩
        · obtain ⟨x, hx, hxe, rfl⟩ := (ih).1 hp2
          exact ⟨x, List.mem_cons_of_mem c hx, hxe, rfl⟩
      · rintro ⟨x, hx, hxe, rfl⟩
        rcases List.mem_cons.mp hx with rfl | hx2
        · exact List.mem_cons_self _ _
        · exact List.mem_cons_of_mem _ ((ih).2 ⟨x, hx2, hxe, rfl⟩)

theorem broadcast_snd (conns : List ClientConnection) (fr : Frame)
    (ex : List (Option String)) (p : Nat × Frame) (hp : p ∈ broadcast conns fr ex) :
    p.2 = fr := by
  obtain ⟨c, _, _, rfl⟩ := (broadcast_mem conns fr ex p).1 hp
  rfl

theorem unicast_snd (conns : List ClientConnection) (fr : Frame)
    (r : Option String) (p : Nat × Frame) (hp : p ∈ unicast conns fr r) :
    p.2 = fr := by
  induction conns with
  | nil => simp [unicast] at hp
  | cons c rest ih =>
    by_cases hc : c.username = r
    · simp [unicast, hc] at hp
      simp [hp]
    · simp [unicast, hc] at hp
      exact ih hp

theorem broadcast_exclude_none (conns : List ClientConnection) (fr : Frame) :
    broadcast conns fr [none] =
      (conns.filter (fun c => c.username.isSome)).map (fun c => (c.cid, fr)) := by
  induction conns with
  | nil => rfl
  | cons c rest ih =>
    cases hu : c.username with
    | none => simp [broadcast, hu, ih]
    | some u => simp [broadcast, hu, ih]

/-
C3.  The claim states that broadcast delivers exactly to the
Identified connections whose username is outside the exclude set.  The
loop in Server.broadcast skips only connections whose username is in
the exclude list, so an unidentified connection, whose username None
is not in a list of string usernames, also receives the frame.
-/

/-- C3 counterexample: with registry holding an identified connection
and an unidentified one, broadcasting with exclude list not containing
None delivers the frame to the unidentified connection, contradicting
the claim that only connections that claimed a username receive it. -/
theorem c3_counterexample :
    ¬ (∀ p ∈ broadcast [⟨0, some "a"⟩, ⟨1, none⟩]
          ⟨.ANNOUNCEMENT, [], []⟩ [some "x"],
        ∀ c ∈ [ClientConnection.mk 0 (some "a"), ⟨1, none⟩],
          c.cid = p.1 → c.username ≠ none) := by
  decide

/-- C3 amended: broadcast delivers the frame exactly to the
connections, identified or not, whose username is not in the exclude
set; an excluded username never receives it, and an unidentified
connection receives it whenever None is not in the exclude set. -/
theorem c3_broadcast_delivery (conns : List ClientConnection) (fr : Frame)
    (ex : List (Option String)) (p : Nat × Frame) :
    p ∈ broadcast conns fr ex ↔
      ∃ c ∈ conns, c.username ∉ ex ∧ p = (c.cid, fr) :=
  broadcast_mem conns fr ex p

/-
C4.  A colliding claim is answered with a DUPLICATE_USERNAME frame
carrying the joined current user list, and the registry, hence the
username field of the claiming connection and its registration, is
left untouched.
-/

/-- C4: on a username collision the server sends the claiming
connection one DUPLICATE_USERNAME frame whose payload is the joined
current user list, and the registry is returned unchanged: the
connection keeps its previous username field and stays registered. -/
theorem c4_duplicate_claim (conns : List ClientConnection) (cid : Nat)
    (uname : Option String)
    (h : usernameMem uname (get_connected_users conns) = true) :
    process_username_packet conns cid uname =
      ⟨conns,
       [(cid, ⟨.DUPLICATE_USERNAME, [],
          strBytes (String.intercalate ", " (get_connected_users conns))⟩)],
       []⟩ := by
  simp [process_username_packet, h, handle_duplicate_username]

/-- C4 witness at a concrete collision. -/
theorem c4_duplicate_claim_witness :
    process_username_packet [⟨0, some "a"⟩, ⟨1, none⟩] 1 (some "a") =
      ⟨[⟨0, some "a"⟩, ⟨1, none⟩],
       [(1, ⟨.DUPLICATE_USERNAME, [],
          strBytes (String.intercalate ", "
            (get_connected_users [⟨0, some "a"⟩, ⟨1, none⟩]))⟩)],
       []⟩ :=
  c4_duplicate_claim [⟨0, some "a"⟩, ⟨1, none⟩] 1 (some "a") (by decide)

/-
C5.  Download requests: an existing file is sent back byte for byte in
one DOWNLOAD frame; a missing file produces no send, one FileNotFound
log event, and a normal return, which is the embedding of the caught
FileNotFoundError.
-/

/-- C5: for a file present in the downloads directory the requester
receives exactly one DOWNLOAD frame whose payload is the file content
itself; for a missing file nothing is sent, a FileNotFound event is
logged, and the handler returns normally. -/
theorem c5_download (files : List (String × List Nat))
    (conns : List ClientConnection) (cid : Nat) (fname : Option String) :
    (∀ content, files.lookup ("download/" ++ pyStr fname) = some content →
        process_download_request files conns cid fname =
          ⟨conns, [(cid, ⟨.DOWNLOAD, [("filename", fname)], content⟩)], []⟩)
    ∧ (files.lookup ("download/" ++ pyStr fname) = none →
        process_download_request files conns cid fname =
          ⟨conns, [], [.fileNotFound ("download/" ++ pyStr fname)]⟩) := by
  constructor
  · intro content h
    simp [process_download_request, h]
  · intro h
    simp [process_download_request, h]

/-- C5 witness at a concrete present file. -/
theorem c5_download_witness :
    process_download_request [("download/a.txt", [1, 2, 3])]
        [⟨0, some "a"⟩] 0 (some "a.txt") =
      ⟨[⟨0, some "a"⟩],
       [(0, ⟨.DOWNLOAD, [("filename", some "a.txt")], [1, 2, 3]⟩)], []⟩ :=
  (c5_download [("download/a.txt", [1, 2, 3])] [⟨0, some "a"⟩] 0
    (some "a.txt")).1 [1, 2, 3] rfl

/-
C10.  Closing a connection that never claimed a username: close_conn
broadcasts the departure text built from the unset username, which
prints as None, while the connection is still registered, and the
exclude list [None] makes the broadcast skip every unidentified
connection while reaching every identified one; removal happens after
the broadcast.
-/

/-- C10: closing an unidentified connection broadcasts the
announcement whose text names None to exactly the identified
connections, computed over the registry before removal, and no
unidentified connection receives it because its unset username is in
the exclude list; the connection is then removed. -/
theorem c10_close_unidentified (conns : List ClientConnection) (cid : Nat)
    (conn : ClientConnection)
    (hfind : conns.find? (fun c => c.cid = cid) = some conn)
    (hu : conn.username = none) :
    close_conn conns cid =
      ⟨conns.eraseP (fun c => c.cid = cid),
       (conns.filter (fun c => c.username.isSome)).map
         (fun c => (c.cid, ⟨.ANNOUNCEMENT, [], strBytes "None has left"⟩)),
       []⟩ := by
  simp [close_conn, hfind, hu, pyStr, broadcast_exclude_none]

/-- C10 witness at a concrete registry. -/
theorem c10_close_unidentified_witness :
    close_conn [⟨0, some "a"⟩, ⟨1, none⟩, ⟨2, none⟩] 1 =
      ⟨List.eraseP (fun c => c.cid = 1) [⟨0, some "a"⟩, ⟨1, none⟩, ⟨2, none⟩],
       (List.filter (fun c => c.username.isSome)
           [ClientConnection.mk 0 (some "a"), ⟨1, none⟩, ⟨2, none⟩]).map
         (fun c => (c.cid, ⟨.ANNOUNCEMENT, [], strBytes "None has left"⟩)),
       []⟩ :=
  c10_close_unidentified [⟨0, some "a"⟩, ⟨1, none⟩, ⟨2, none⟩] 1 ⟨1, none⟩
    (by decide) rfl

theorem getParam_setParam_ne (ps : List (String × String)) (k v k' : String)
    (h : k' ≠ k) : getParam (setParam ps k v) k' = getParam ps k' := by
  induction ps with
  | nil =>
    have hb : (k' == k) = false := beq_eq_false_iff_ne.mpr h
    simp [setParam, getParam, List.lookup, hb]
  | cons kv rest ih =>
    obtain ⟨k0, v0⟩ := kv
    by_cases hk : k0 = k
    · subst hk
      have hb : (k' == k0) = false := beq_eq_false_iff_ne.mpr h
      simp [setParam, getParam, List.lookup, hb]
    · have hb2 : (k0 == k) = false := beq_eq_false_iff_ne.mpr hk
      cases hbeq : (k' == k0) with
      | true => simp [setParam, getParam, List.lookup, hk, hbeq]
      | false => simpa [setParam, getParam, List.lookup, hk, hbeq] using ih

/-
C8.  Dispatch of an OUT_MESSAGE packet reads only the recipient
parameter of the inbound header; the sender attached to the delivered
IN_MESSAGE frame is the username stored in the registry record of the
sending connection, so a sender name carried in the inbound packet
cannot influence the output.
-/

/-- C8: the sender of every delivered IN_MESSAGE frame is the registry
username of the sending connection, and two inbound packets from the
same connection that differ only in a claimed sender parameter produce
identical results. -/
theorem c8_sender_from_registry (conns : List ClientConnection) (cid : Nat)
    (ps : List (String × String)) (v1 v2 : String) (msg : String)
    (conn : ClientConnection)
    (hfind : conns.find? (fun c => c.cid = cid) = some conn) :
    process_message_packet conns cid
        (getParam (setParam ps "sender" v1) "recipient") msg =
      process_message_packet conns cid
        (getParam (setParam ps "sender" v2) "recipient") msg
    ∧ ∀ p ∈ (process_message_packet conns cid
          (getParam (setParam ps "sender" v1) "recipient") msg).sends,
        p.2 = ⟨.IN_MESSAGE, [("sender", conn.username)], strBytes msg⟩ := by
  have hrec : ∀ v : String,
      getParam (setParam ps "sender" v) "recipient" = getParam ps "recipient" :=
    fun v => getParam_setParam_ne ps "sender" v "recipient" (by decide)
  constructor
  · rw [hrec v1, hrec v2]
  · rw [hrec v1]
    intro p hp
    cases ht : pyTruthy (getParam ps "recipient") with
    | true =>
      simp [process_message_packet, hfind, ht] at hp
      exact unicast_snd conns _ _ p hp
    | false =>
      simp [process_message_packet, hfind, ht] at hp
      exact broadcast_snd conns _ _ p hp

/-- C8 witness at a concrete registry and message. -/
theorem c8_sender_from_registry_witness :
    (process_message_packet [⟨0, some "alice"⟩, ⟨1, some "bob"⟩] 0
        (getParam (setParam [("recipient", "bob")] "sender" "mallory") "recipient") "hi" =
      process_message_packet [⟨0, some "alice"⟩, ⟨1, some "bob"⟩] 0
        (getParam (setParam [("recipient", "bob")] "sender" "eve") "recipient") "hi")
    ∧ ∀ p ∈ (process_message_packet [⟨0, some "alice"⟩, ⟨1, some "bob"⟩] 0
          (getParam (setParam [("recipient", "bob")] "sender" "mallory") "recipient") "hi").sends,
        p.2 = ⟨.IN_MESSAGE, [("sender", some "alice")], strBytes "hi"⟩ :=
  c8_sender_from_registry [⟨0, some "alice"⟩, ⟨1, some "bob"⟩] 0
    [("recipient", "bob")] "mallory" "eve" "hi" ⟨0, some "alice"⟩ (by decide)

/-
C9.  The claim says a stored username never changes after the first
accepted claim.  In process_username_packet the only guard is the
collision check against the current user list, so a connection that
already holds a username and claims a fresh, unheld name has the claim
accepted and the stored username overwritten.
-/

/-- C9 counterexample: connection 0 claims the name a, which is
accepted and stored; a later username packet claiming the fresh name b
is also accepted and changes the stored username, contradicting the
claim that no later username packet changes it. -/
theorem c9_counterexample :
    (runEvents [.register, .claim 0 (some "a")]).conns = [⟨0, some "a"⟩]
    ∧ (runEvents [.register, .claim 0 (some "a"), .claim 0 (some "b")]).conns
        = [⟨0, some "b"⟩]
    ∧ some "b" ≠ some "a" := by
  refine ⟨by decide, by decide, by decide⟩

theorem find?_setUsername (conns : List ClientConnection) (cid : Nat)
    (u : Option String) (conn : ClientConnection)
    (hfind : conns.find? (fun c => c.cid = cid) = some conn) :
    (setUsername conns cid u).find? (fun c => c.cid = cid) =
      some { conn with username := u } := by
  induction conns with
  | nil => simp [List.find?] at hfind
  | cons c rest ih =>
    by_cases hc : c.cid = cid
    · rw [List.find?_cons_of_pos _ (by simpa using hc)] at hfind
      cases hfind
      simp [setUsername, hc, List.find?_cons_of_pos]
    · rw [List.find?_cons_of_neg _ (by simpa using hc)] at hfind
      simpa [setUsername, hc, List.find?_cons_of_neg, ih hfind] using ih hfind

/-- C9 amended: a colliding claim never mutates the stored username,
and an accepted claim always stores the claimed name, even when the
connection already holds a username from an earlier accepted claim, so
a later claim of a fresh name renames the connection. -/
theorem c9_username_mutation (conns : List ClientConnection) (cid : Nat)
    (uname : Option String) (conn : ClientConnection)
    (hfind : conns.find? (fun c => c.cid = cid) = some conn) :
    (process_username_packet conns cid uname).conns.find? (fun c => c.cid = cid) =
      some { conn with
             username :=
               if usernameMem uname (get_connected_users conns) then conn.username
               else uname } := by
  by_cases h : usernameMem uname (get_connected_users conns) = true
  · simp [process_username_packet, h, handle_duplicate_username, hfind]
  · rw [process_username_packet, if_neg (by simpa using h)]
    simp only [eq_false_of_ne_true h, Bool.false_eq_true, if_false]
    exact find?_setUsername conns cid uname conn hfind

/-- C9 amended witness: an identified connection renamed by a later
accepted claim, concretely. -/
theorem c9_username_mutation_witness :
    (process_username_packet [⟨0, some "a"⟩] 0 (some "b")).conns.find?
        (fun c => c.cid = 0) = some ⟨0, some "b"⟩ :=
  c9_username_mutation [⟨0, some "a"⟩] 0 (some "b") ⟨0, some "a"⟩ (by decide)

/-
C1.  Uniqueness of usernames across the registry.  The acceptance
check consults get_connected_users, whose comprehension omits unset
and empty usernames, so uniqueness holds for every nonempty username
but a claim of the empty string is always accepted, even when another
registered connection already holds the empty string.
-/

theorem not_held_of_not_mem_users (conns : List ClientConnection) (n : String)
    (hn : n ≠ "") (h : n ∉ get_connected_users conns) :
    ∀ c ∈ conns, c.username ≠ some n := by
  intro c hc heq
  apply h
  rw [get_connected_users, List.mem_filterMap]
  exact ⟨c, hc, by rw [heq]; simp [hn]⟩

theorem setUsername_cid (c : ClientConnection) (cid : Nat) (u : Option String) :
    (if c.cid = cid then { c with username := u } else c).cid = c.cid := by
  split <;> rfl

theorem inv_claim (conns : List ClientConnection) (nid cid : Nat)
    (uname : Option String) (h : Inv ⟨conns, nid⟩) :
    Inv ⟨(process_username_packet conns cid uname).conns, nid⟩ := by
  cases hdup : usernameMem uname (get_connected_users conns) with
  | true => simpa [process_username_packet, hdup, handle_duplicate_username] using h
  | false =>
    rw [process_username_packet, if_neg (by simp [hdup])]
    simp only
    obtain ⟨hpw, hlt⟩ := h
    constructor
    · rw [setUsername, List.pairwise_map]
      refine hpw.imp_of_mem ?_
      intro a b ha hb hab
      obtain ⟨hcid, hR⟩ := hab
      refine ⟨by rw [setUsername_cid, setUsername_cid]; exact hcid, ?_⟩
      intro u hu hau
      by_cases haid : a.cid = cid
      · have hbid : ¬ b.cid = cid := fun hb2 => hcid (by rw [haid, hb2])
        rw [if_neg hbid]
        rw [if_pos haid] at hau
        have huname : uname = some u := hau
        have hnm : u ∉ get_connected_users conns := by
          intro hmem
          rw [huname] at hdup
          simp [usernameMem, hmem] at hdup
        exact not_held_of_not_mem_users conns u hu hnm b hb
      · rw [if_neg haid] at hau
        by_cases hbid : b.cid = cid
        · rw [if_pos hbid]
          simp only
          intro huname
          have hnm : u ∉ get_connected_users conns := by
            intro hmem
            rw [huname] at hdup
            simp [usernameMem, hmem] at hdup
          exact not_held_of_not_mem_users conns u hu hnm a ha hau
        · rw [if_neg hbid]
          exact hR u hu hau
    · intro c hc
      rw [setUsername] at hc
      obtain ⟨c0, hc0, rfl⟩ := List.mem_map.mp hc
      rw [setUsername_cid]
      exact hlt c0 hc0

theorem inv_step (s : ServerState) (e : Event) (h : Inv s) : Inv (step s e) := by
  obtain ⟨hpw, hlt⟩ := h
  cases e with
  | register =>
    constructor
    · rw [step]
      simp only
      rw [List.pairwise_append]
      refine ⟨hpw, List.pairwise_singleton _ _, ?_⟩
      intro a ha b hb
      rw [List.mem_singleton] at hb
      subst hb
      refine ⟨Nat.ne_of_lt (hlt a ha), ?_⟩
      intro u _ _ hbu
      exact Option.noConfusion hbu
    · intro c hc
      rw [step] at hc
      simp only at hc ⊢
      rcases List.mem_append.mp hc with hc1 | hc2
      · exact Nat.lt_succ_of_lt (hlt c hc1)
      · rw [List.mem_singleton] at hc2
        subst hc2
        exact Nat.lt_succ_self _
  | claim cid u => exact inv_claim s.conns s.nextId cid u ⟨hpw, hlt⟩
  | disconnect cid =>
    rw [step]
    cases hfind : s.conns.find? (fun c => c.cid = cid) with
    | none => exact ⟨by simpa [close_conn, hfind] using hpw,
        by simpa [close_conn, hfind] using hlt⟩
    | some conn =>
      have hsub : (s.conns.eraseP (fun c => c.cid = cid)).Sublist s.conns :=
        List.eraseP_sublist s.conns
      exact ⟨by simpa [close_conn, hfind] using hpw.sublist hsub,
        by simp only [close_conn, hfind]; intro c hc; exact hlt c (hsub.mem hc)⟩

theorem inv_run (evs : List Event) : Inv (runEvents evs) := by
  rw [runEvents]
  have h0 : Inv ⟨[], 0⟩ := ⟨List.Pairwise.nil, by intro c hc; simp at hc⟩
  generalize hs : (⟨[], 0⟩ : ServerState) = s at h0
  clear hs
  induction evs generalizing s with
  | nil => exact h0
  | cons e rest ih => exact ih (step s e) (inv_step s e h0)

/-- C1 counterexample: two connections register and both claim the
empty username; both claims are accepted because the user list omits
empty usernames, so afterwards two registered connections hold the
same username, contradicting the claim that a claim is accepted only
when no other registered connection holds that name. -/
theorem c1_counterexample :
    (runEvents [.register, .register, .claim 0 (some ""), .claim 1 (some "")]).conns
        = [⟨0, some ""⟩, ⟨1, some ""⟩]
    ∧ ¬ (runEvents [.register, .register, .claim 0 (some ""),
          .claim 1 (some "")]).conns.Pairwise
        (fun a b => ∀ u : String, a.username = some u → b.username ≠ some u) := by
  have he : (runEvents [.register, .register, .claim 0 (some ""),
      .claim 1 (some "")]).conns = [⟨0, some ""⟩, ⟨1, some ""⟩] := by decide
  refine ⟨he, ?_⟩
  rw [he]
  intro h
  obtain ⟨h1, _⟩ := List.pairwise_cons.mp h
  exact h1 ⟨1, some ""⟩ (List.mem_singleton.mpr rfl) "" rfl rfl

/-- C1 amended: along every sequence of registrations, username claims
and disconnections, at most one registered connection holds any given
nonempty username; the empty username escapes the check because the
user list used by the acceptance test omits unset and empty
usernames. -/
theorem c1_unique_nonempty_usernames (evs : List Event) :
    (runEvents evs).conns.Pairwise
      (fun a b => ∀ u : String, u ≠ "" → a.username = some u → b.username ≠ some u) :=
  (inv_run evs).1.imp (fun h => h.2)

/-
C6.  The decoder rejects an unknown type value and a negative declared
length with a ProtocolError, but neither process_socket nor the listen
loop catches it: the error escapes, no connection is closed, and the
remaining ready sockets of the iteration are never served, so one
misbehaving client terminates the serving loop.
-/

/-- C6 code bug, evaluated at the failing input: the decoder rejects a
header with the unknown type value 0 and one with declared length -5,
and a loop iteration whose first ready socket delivers the bad header
aborts with the uncaught ProtocolError: no connection is closed and
the packet of the healthy second connection is never processed. -/
theorem c6_code_bug :
    decode_header "0|5|".data = .error .unknownType
    ∧ decode_header "1|-5|".data = .error .negativeLength
    ∧ listenSteps ⟨[], none⟩ [⟨0, some "a"⟩, ⟨1, some "b"⟩]
        [⟨1, ["0|5|".data]⟩, ⟨0, ["2|2|".data, "hi".data]⟩]
        = .error .unknownType :=
  ⟨rfl, rfl, rfl⟩

/-
C7.  The loop issues a single recv for the header and a single recv
for the payload; it never compares the number of bytes received with
the declared length, so a short read is dispatched as if it were the
complete packet.
-/

/-- C7 code bug, evaluated at the failing input: a header declaring a
10 byte payload followed by a recv that returns only the 5 bytes of
the text hello is dispatched immediately, and the 5 byte text is
delivered as the complete message instead of being retried. -/
theorem c7_code_bug :
    decode_header "2|10|".data = .ok (.OUT_MESSAGE, 10, [])
    ∧ process_socket ⟨[], none⟩ [⟨0, some "a"⟩, ⟨1, some "b"⟩]
        ⟨0, ["2|10|".data, "hello".data]⟩
        = .ok ⟨[⟨0, some "a"⟩, ⟨1, some "b"⟩],
            [(1, ⟨.IN_MESSAGE, [("sender", some "a")], strBytes "hello"⟩)], []⟩
    ∧ (strBytes "hello").length = 5 :=
  ⟨rfl, rfl, rfl⟩

/-
C2.  Round trip of the header codec.  The lemmas below show that the
decimal rendering of the type value and the declared length parse
back, that the parameter region parses back for valid parameters, and
that the space padding added up to HEADER_SIZE is ignored.
-/

theorem digit_toNat (d : Nat) (h : d < 10) :
    (Char.ofNat (48 + d)).toNat = 48 + d := by
  interval_cases d <;> decide

theorem digit_isDigit (d : Nat) (h : d < 10) :
    isDigitCh (Char.ofNat (48 + d)) = true := by
  interval_cases d <;> decide

theorem natCharsCore_digits (fuel : Nat) :
    ∀ n, n < fuel → ∀ c ∈ natCharsCore fuel n, isDigitCh c = true := by
  induction fuel with
  | zero => intro n hn; omega
  | succ fuel ih =>
    intro n hn c hc
    rw [natCharsCore] at hc
    by_cases h10 : n < 10
    · rw [if_pos h10, List.mem_singleton] at hc
      subst hc
      exact digit_isDigit n h10
    · rw [if_neg h10] at hc
      rcases List.mem_append.mp hc with hc1 | hc2
      · refine ih (n / 10) ?_ c hc1
        have h1 : n / 10 < n := Nat.div_lt_self (by omega) (by omega)
        omega
      · rw [List.mem_singleton] at hc2
        subst hc2
        exact digit_isDigit (n % 10) (Nat.mod_lt n (by omega))

theorem natCharsCore_ne_nil (fuel n : Nat) (h : 0 < fuel) :
    natCharsCore fuel n ≠ [] := by
  cases fuel with
  | zero => omega
  | succ fuel =>
    rw [natCharsCore]
    split
    · simp
    · simp

theorem natCharsCore_foldl (fuel : Nat) :
    ∀ n, n < fuel → ∀ a : Nat,
      (natCharsCore fuel n).foldl (fun a c => a * 10 + (c.toNat - 48)) a =
        a * 10 ^ (natCharsCore fuel n).length + n := by
  induction fuel with
  | zero => intro n hn; omega
  | succ fuel ih =>
    intro n hn a
    rw [natCharsCore]
    by_cases h10 : n < 10
    · rw [if_pos h10]
      simp [List.foldl, digit_toNat n h10]
    · rw [if_neg h10]
      have hdiv : n / 10 < fuel := by
        have h1 : n / 10 < n := Nat.div_lt_self (by omega) (by omega)
        omega
      rw [List.foldl_append, ih (n / 10) hdiv a]
      simp only [List.foldl, List.length_append, List.length_singleton]
      rw [digit_toNat (n % 10) (Nat.mod_lt n (by omega))]
      have hmod : n % 10 + 48 - 48 = n % 10 := by omega
      rw [pow_succ]
      have hdm := Nat.div_add_mod n 10
      calc (a * 10 ^ (natCharsCore fuel (n / 10)).length + n / 10) * 10
          + (48 + n % 10 - 48)
        = a * (10 ^ (natCharsCore fuel (n / 10)).length * 10)
          + (n / 10 * 10 + n % 10) := by ring_nf; omega
      _ = a * (10 ^ (natCharsCore fuel (n / 10)).length * 10) + n := by
        omega

theorem parseNat_natChars (n : Nat) : parseNat (natChars n) = some n := by
  rw [natChars, parseNat]
  rw [if_neg (natCharsCore_ne_nil (n + 1) n (Nat.succ_pos n))]
  rw [if_pos (List.all_eq_true.mpr (fun c hc =>
    natCharsCore_digits (n + 1) n (Nat.lt_succ_self n) c hc))]
  rw [natCharsCore_foldl (n + 1) n (Nat.lt_succ_self n) 0]
  simp

theorem natChars_head_not_minus (n : Nat) : (natChars n).head? ≠ some '-' := by
  cases hc : natChars n with
  | nil => simp
  | cons c t =>
    have hd : isDigitCh c = true := by
      apply natCharsCore_digits (n + 1) n (Nat.lt_succ_self n)
      rw [← natChars, hc]
      exact List.mem_cons_self c t
    simp only [List.head?, ne_eq, Option.some.injEq]
    intro he
    subst he
    simp [isDigitCh] at hd

theorem parseInt_natChars (n : Nat) : parseInt (natChars n) = some (n : Int) := by
  rw [parseInt, if_neg (natChars_head_not_minus n), parseNat_natChars n]
  rfl

theorem takeWhile_middle (p : Char → Bool) (xs : List Char) (y : Char)
    (ys : List Char) (hx : ∀ x ∈ xs, p x = true) (hy : p y = false) :
    (xs ++ y :: ys).takeWhile p = xs ∧ (xs ++ y :: ys).dropWhile p = y :: ys := by
  induction xs with
  | nil => simp [List.takeWhile_cons, List.dropWhile_cons, hy]
  | cons x xt ih =>
    have hpx : p x = true := hx x (List.mem_cons_self _ _)
    have iht := ih (fun z hz => hx z (List.mem_cons_of_mem _ hz))
    simp [List.takeWhile_cons, List.dropWhile_cons, hpx, iht.1, iht.2]

theorem renderParams_length (params : List (String × String)) :
    params.length ≤ (renderParams params).length := by
  induction params with
  | nil => simp [renderParams]
  | cons kv rest ih =>
    obtain ⟨k, v⟩ := kv
    simp only [renderParams, List.length_cons, List.length_append]
    omega

theorem string_mk_data (s : String) : (⟨s.data⟩ : String) = s := rfl

theorem parseParamsF_render (params : List (String × String))
    (hOK : paramsOk params) :
    ∀ pad : List Char, (pad = [] ∨ ∃ t, pad = ' ' :: t) →
      ∀ fuel, params.length < fuel →
        parseParamsF fuel (renderParams params ++ pad) = some params := by
  induction params with
  | nil =>
    intro pad hpad fuel hfuel
    cases fuel with
    | zero => omega
    | succ f =>
      rcases hpad with rfl | ⟨t, rfl⟩
      · simp [renderParams, parseParamsF]
      · simp [renderParams, parseParamsF]
  | cons kv rest ih =>
    obtain ⟨k, v⟩ := kv
    intro pad hpad fuel hfuel
    cases fuel with
    | zero => omega
    | succ f =>
      have hOKh := hOK (k, v) (List.mem_cons_self _ _)
      have hOKr : paramsOk rest := fun kv2 h2 => hOK kv2 (List.mem_cons_of_mem _ h2)
      have hassoc : renderParams ((k, v) :: rest) ++ pad =
          k.data ++ '=' :: (v.data ++ ';' :: (renderParams rest ++ pad)) := by
        simp [renderParams, List.append_assoc]
      rw [hassoc]
      have htw1 := takeWhile_middle (fun x => decide (x ≠ '='))
        k.data '=' (v.data ++ ';' :: (renderParams rest ++ pad))
        (fun x hx => by simp [(hOKh.1 x hx).2.1])
        (by simp)
      have htw2 := takeWhile_middle (fun x => decide (x ≠ ';'))
        v.data ';' (renderParams rest ++ pad)
        (fun x hx => by simp [hOKh.2 x hx])
        (by simp)
      have hhead : (k.data ++ '=' :: (v.data ++ ';' :: (renderParams rest ++ pad))).headD ' ' ≠ ' ' := by
        cases hkd : k.data with
        | nil => simp
        | cons c0 kt =>
          simp only [List.cons_append, List.headD_cons]
          exact (hOKh.1 c0 (by rw [hkd]; exact List.mem_cons_self _ _)).1
      rw [parseParamsF, if_neg hhead]
      simp only [htw1.1, htw1.2, htw2.1, htw2.2]
      rw [ih hOKr pad hpad f (by simpa using Nat.lt_of_succ_lt_succ hfuel)]
      simp [string_mk_data]

theorem isDigit_ne_bar (c : Char) (h : isDigitCh c = true) : c ≠ '|' := by
  intro he
  subst he
  exact absurd h (by decide)

/-- C2: for every valid header, a packet type, a declared payload
length and parameters that fit within the fixed header capacity,
decoding the encoded header bytes reproduces the original type, length
and parameters exactly. -/
theorem c2_header_roundtrip (t : PacketType) (size : Nat)
    (params : List (String × String)) (hOK : paramsOk params)
    (hdr : List Char) (henc : encode_header t size params = some hdr) :
    decode_header hdr = .ok (t, (size : Int), params) := by
  rw [encode_header] at henc
  by_cases hle : (natChars t.value ++ '|' :: (natChars size ++ '|' :: renderParams params)).length ≤ HEADER_SIZE
  swap
  · rw [if_neg hle] at henc
    exact absurd henc (by simp)
  rw [if_pos hle] at henc
  set m := HEADER_SIZE -
    (natChars t.value ++ '|' :: (natChars size ++ '|' :: renderParams params)).length with hm
  have hpad : List.replicate m ' ' = [] ∨
      ∃ t2, List.replicate m ' ' = ' ' :: t2 := by
    cases m with
    | zero => exact Or.inl rfl
    | succ m2 => exact Or.inr ⟨List.replicate m2 ' ', rfl⟩
  have hh : hdr = natChars t.value ++ '|' ::
      (natChars size ++ '|' :: (renderParams params ++ List.replicate m ' ')) := by
    have h2 := Option.some.inj henc
    rw [← h2]
    simp [List.append_assoc]
  subst hh
  have hd1 : ∀ c ∈ natChars t.value, (fun c => decide (c ≠ '|')) c = true := by
    intro c hc
    simp only [decide_eq_true_eq]
    exact isDigit_ne_bar c
      (natCharsCore_digits (t.value + 1) t.value (Nat.lt_succ_self _) c hc)
  have hd2 : ∀ c ∈ natChars size, (fun c => decide (c ≠ '|')) c = true := by
    intro c hc
    simp only [decide_eq_true_eq]
    exact isDigit_ne_bar c
      (natCharsCore_digits (size + 1) size (Nat.lt_succ_self _) c hc)
  have htw1 := takeWhile_middle (fun c => decide (c ≠ '|')) (natChars t.value)
    '|' (natChars size ++ '|' :: (renderParams params ++ List.replicate m ' '))
    hd1 (by simp)
  have htw2 := takeWhile_middle (fun c => decide (c ≠ '|')) (natChars size)
    '|' (renderParams params ++ List.replicate m ' ') hd2 (by simp)
  have hfuel : params.length <
      (renderParams params ++ List.replicate m ' ').length + 1 := by
    have h1 := renderParams_length params
    simp only [List.length_append]
    omega
  have hpp := parseParamsF_render params hOK (List.replicate m ' ') hpad
    ((renderParams params ++ List.replicate m ' ').length + 1) hfuel
  simp only [decode_header, htw1.1, htw1.2, htw2.1, htw2.2,
    parseInt_natChars, PacketType.ofValue_value, hpp]
  rw [if_neg (by omega)]

/-- C2 witness at a concrete header. -/
theorem c2_header_roundtrip_witness :
    decode_header ((encode_header .OUT_MESSAGE 5 [("recipient", "bob")]).getD [])
      = .ok (.OUT_MESSAGE, (5 : Int), [("recipient", "bob")]) :=
  c2_header_roundtrip .OUT_MESSAGE 5 [("recipient", "bob")]
    (by unfold paramsOk; decide) _ rfl

end Chat
